import Mathlib

/-
  Verification development for the tile cache and Web-Mercator projection
  subsystem of a Go ground-station map viewer.

  The Go code is shallowly embedded: Go maps become association lists or
  membership lists, the mutex-guarded `TileManager` state becomes an
  explicit record threaded through the operations, the `go`-scheduling of
  an asynchronous fetch is recorded as an explicit flag or action trace,
  disk and network are oracles passed to the fetch functions, and the
  float64 arithmetic of the projection functions is modelled over the real
  numbers.
-/

namespace ElrsMap

/-- Constant from the source: tile edge length in pixels (`TileSize = 256`). -/
def TileSize : ℕ := 256

/-- Constant from the source: maximum zoom level (`MaxZoom = 19`). -/
def MaxZoom : ℕ := 19

/-- Constant from the source: minimum zoom level (`MinZoom = 1`). -/
def MinZoom : ℕ := 1

/-- Map tile source (`MapSource` in the Go code): street or satellite. -/
inductive MapSource where
  | street
  | satellite
deriving DecidableEq

/-- Tile coordinate (`TileCoord` in the Go code): integer indices `x`, `y`
at zoom level `z`. -/
structure TileCoord where
  x : ℤ
  y : ℤ
  z : ℤ
deriving DecidableEq

/-- Cache key (`TileCacheKey` in the Go code): a tile coordinate together
with the map source, so both sources coexist in one map. -/
structure TileCacheKey where
  coord : TileCoord
  source : MapSource
deriving DecidableEq

/-- State of the Go `TileManager`: the cache directory, the active source,
the in-memory decoded-tile map `tiles` (an association list: a Go map
assignment becomes a cons, `List.lookup` sees the newest binding), and the
in-flight set `loading` (a list read through membership). `Img` is the
type of decoded images (`*ebiten.Image` in the source), kept abstract.
The `http.Client` field holds no modelled state. -/
structure TMState (Img : Type) where
  cacheDir : String
  source : MapSource
  tiles : List (TileCacheKey × Img)
  loading : List TileCacheKey
deriving DecidableEq

/-- `NewTileManager`: fresh manager defaulting to the satellite source,
with empty tile map and in-flight set. -/
def NewTileManager (Img : Type) (cacheDir : String) : TMState Img :=
  { cacheDir := cacheDir, source := MapSource.satellite, tiles := [], loading := [] }

/-- `TileManager.SetSource`: change the active map source. -/
def SetSource {Img : Type} (s : TMState Img) (source : MapSource) : TMState Img :=
  { s with source := source }

/-- `TileManager.GetSource`: read the active map source. -/
def GetSource {Img : Type} (s : TMState Img) : MapSource :=
  s.source

/-- `TileManager.ToggleSource`: switch between street and satellite and
return the new source together with the new state. -/
def ToggleSource {Img : Type} (s : TMState Img) : MapSource × TMState Img :=
  let source := if s.source = MapSource.street then MapSource.satellite
                else MapSource.street
  (source, { s with source := source })

/-- `TileManager.ClearCache`: replace the in-memory tile map by a fresh
empty map; nothing else is touched. -/
def ClearCache {Img : Type} (s : TMState Img) : TMState Img :=
  { s with tiles := [] }

/-- `TileManager.GetTile`, one call taken as an atomic step on the state.
Result: the optional resident tile, the successor state, and whether an
asynchronous `loadTile` fetch was scheduled (the `go tm.loadTile(coord,
source)` statement). `GetTile` takes no disk or network oracle: a call
performs no I/O on the calling context by construction. -/
def GetTile {Img : Type} [DecidableEq Img] (s : TMState Img) (coord : TileCoord) :
    Option Img × TMState Img × Bool :=
  let key : TileCacheKey := { coord := coord, source := s.source }
  match s.tiles.lookup key with
  | some tile => (some tile, s, false)
  | none =>
    if key ∈ s.loading then (none, s, false)
    else (none, { s with loading := key :: s.loading }, true)

/-- `TileManager.cachePath`: deterministic disk path of a key,
`<cacheDir>/<sourceDir>/<z>_<x>_<y>.jpg`. -/
def cachePath (cacheDir : String) (coord : TileCoord) (source : MapSource) : String :=
  let sourceDir := match source with
    | MapSource.street => "street"
    | MapSource.satellite => "satellite"
  cacheDir ++ "/" ++ sourceDir ++ "/" ++ toString coord.z ++ "_" ++
    toString coord.x ++ "_" ++ toString coord.y ++ ".jpg"

/-- Observable actions of a fetch task, recorded as a trace. -/
inductive FetchAction where
  | readDisk
  | httpGet
  | writeDisk
  | publish
  | clearMark
deriving DecidableEq

/-- Outcome of the HTTP fetch for one tile, as distinguished by
`TileManager.downloadTile`: a request construction or transport error, a
non-200 status, a body read error, a decode failure (after the body was
already saved to disk), or a successfully decoded image. -/
inductive NetResult (Img : Type) where
  | reqError
  | statusError (code : ℕ)
  | readError
  | decodeFail
  | ok (img : Img)
deriving DecidableEq

/-- `TileManager.downloadTile`: issue the HTTP GET for the key; on a
request, status, or body-read failure return no image; once the body is
read it is written to the disk cache before decoding, so a decode failure
still performed the disk write. Returns the optional decoded image and the
trace of performed actions. -/
def downloadTile {Img : Type} (net : TileCacheKey → NetResult Img)
    (key : TileCacheKey) : Option Img × List FetchAction :=
  match net key with
  | NetResult.reqError => (none, [FetchAction.httpGet])
  | NetResult.statusError _ => (none, [FetchAction.httpGet])
  | NetResult.readError => (none, [FetchAction.httpGet])
  | NetResult.decodeFail => (none, [FetchAction.httpGet, FetchAction.writeDisk])
  | NetResult.ok img => (some img, [FetchAction.httpGet, FetchAction.writeDisk])

/-- `TileManager.loadFromCache`: read and decode the file at the key's disk
cache path; the oracle `disk` maps a path to its decoded image, or `none`
when the file is missing or does not decode. -/
def loadFromCache {Img : Type} (disk : String → Option Img) (s : TMState Img)
    (coord : TileCoord) (source : MapSource) : Option Img :=
  disk (cachePath s.cacheDir coord source)

/-- `TileManager.loadTile`: the asynchronous fetch task for one key, taken
as one atomic step on the state. Disk first: on a disk hit the image is
published and the task stops; otherwise the tile is downloaded and
published only on success. The deferred `delete(tm.loading, key)` is the
last recorded action on every path. -/
def loadTile {Img : Type} [DecidableEq Img] (disk : String → Option Img)
    (net : TileCacheKey → NetResult Img) (s : TMState Img)
    (coord : TileCoord) (source : MapSource) : TMState Img × List FetchAction :=
  let key : TileCacheKey := { coord := coord, source := source }
  match loadFromCache disk s coord source with
  | some img =>
      ({ s with tiles := (key, img) :: s.tiles,
                loading := s.loading.filter (fun k => k != key) },
       [FetchAction.readDisk, FetchAction.publish, FetchAction.clearMark])
  | none =>
      match downloadTile net key with
      | (some img, acts) =>
          ({ s with tiles := (key, img) :: s.tiles,
                    loading := s.loading.filter (fun k => k != key) },
           FetchAction.readDisk :: acts ++ [FetchAction.publish, FetchAction.clearMark])
      | (none, acts) =>
          ({ s with loading := s.loading.filter (fun k => k != key) },
           FetchAction.readDisk :: acts ++ [FetchAction.clearMark])

/-- Conversion of a Go `float64` to `int` (`int(v)`): truncation toward
zero, modelled on the reals. -/
noncomputable def goInt (v : ℝ) : ℤ :=
  if 0 ≤ v then ⌊v⌋ else ⌈v⌉

/-- `LatLonToTile`: Web-Mercator forward projection truncated to integer
tile indices, `n = 2^zoom`, `x = int((lon+180)/360*n)`,
`y = int((1 - asinh(tan(lat*pi/180))/pi)/2*n)`. The Go float64 arithmetic
is modelled over the real numbers. -/
noncomputable def LatLonToTile (lat lon : ℝ) (zoom : ℕ) : ℤ × ℤ :=
  let n : ℝ := 2 ^ zoom
  let x := goInt ((lon + 180) / 360 * n)
  let latRad := lat * Real.pi / 180
  let y := goInt ((1 - Real.arsinh (Real.tan latRad) / Real.pi) / 2 * n)
  (x, y)

/-- `LatLonToPixel`: the same projection scaled by `TileSize` instead of
truncated to tile granularity. -/
noncomputable def LatLonToPixel (lat lon : ℝ) (zoom : ℕ) : ℝ × ℝ :=
  let n : ℝ := 2 ^ zoom
  let x := (lon + 180) / 360 * n * (TileSize : ℝ)
  let latRad := lat * Real.pi / 180
  let y := (1 - Real.arsinh (Real.tan latRad) / Real.pi) / 2 * n * (TileSize : ℝ)
  (x, y)

/-- `TileToLatLon`: inverse projection, the geographic top-left corner of
tile `(x, y)` at `zoom`; `lon = x/n*360 - 180`,
`lat = atan(sinh(pi*(1 - 2*y/n))) * 180/pi`. Returns `(lat, lon)`. -/
noncomputable def TileToLatLon (x y : ℤ) (zoom : ℕ) : ℝ × ℝ :=
  let n : ℝ := 2 ^ zoom
  let lon := (x : ℝ) / n * 360 - 180
  let latRad := Real.arctan (Real.sinh (Real.pi * (1 - 2 * (y : ℝ) / n)))
  let lat := latRad * 180 / Real.pi
  (lat, lon)

/-- Integer interval `[lo, hi]` as a list: the values taken by a Go
`for v := lo; v <= hi; v++` loop. -/
def intRange (lo hi : ℤ) : List ℤ :=
  (List.range (hi + 1 - lo).toNat).map (fun i : ℕ => lo + (i : ℤ))

/-- Wrapping of the X tile index as in `GetTilesForView`:
`x = ((x % n) + n) % n` with Go's truncated `%` (`Int.tmod`). -/
def wrapX (x n : ℤ) : ℤ :=
  (x.tmod n + n).tmod n

/-- Core of `TileManager.GetTilesForView` after the center tile has been
computed: Go integer division (truncated, `Int.tdiv`) sizes the block as
`tilesX = screenW/TileSize + 2` per axis, `dx` and `dy` run the two nested
loops over `[-tilesX/2, tilesX/2]` and `[-tilesY/2, tilesY/2]`, the X
index is wrapped modulo `n = 2^zoom` and any tile whose Y index falls
outside `[0, n)` is skipped. -/
def tilesForView (centerX centerY : ℤ) (zoom : ℕ) (screenW screenH : ℤ) :
    List TileCoord :=
  let tilesX : ℤ := screenW.tdiv (TileSize : ℤ) + 2
  let tilesY : ℤ := screenH.tdiv (TileSize : ℤ) + 2
  let n : ℤ := 2 ^ zoom
  (intRange ((-tilesX).tdiv 2) (tilesX.tdiv 2)).flatMap (fun dx =>
    (intRange ((-tilesY).tdiv 2) (tilesY.tdiv 2)).filterMap (fun dy =>
      let x := centerX + dx
      let y := centerY + dy
      let xw := wrapX x n
      if y < 0 ∨ n ≤ y then none
      else some { x := xw, y := y, z := (zoom : ℤ) }))

/-- `TileManager.GetTilesForView`: compute the tile containing the view
center via `LatLonToTile`, then enumerate the covering block. -/
noncomputable def GetTilesForView (centerLat centerLon : ℝ) (zoom : ℕ)
    (screenW screenH : ℤ) : List TileCoord :=
  let c := LatLonToTile centerLat centerLon zoom
  tilesForView c.1 c.2 zoom screenW screenH

/-- Rectangular block enumeration with explicit half-widths `kx`, `ky`:
the normal form of the two nested loops of `GetTilesForView` (it equals
`tilesForView` once the loop bounds are rewritten, see
`tilesForView_eq_blockEnum`). -/
def blockEnum (cX cY n z kx ky : ℤ) : List TileCoord :=
  (intRange (-kx) kx).flatMap (fun dx =>
    (intRange (-ky) ky).filterMap (fun dy =>
      if cY + dy < 0 ∨ n ≤ cY + dy then none
      else some { x := wrapX (cX + dx) n, y := cY + dy, z := z }))

/-- `ByteReader`: a byte slice plus a read position. -/
structure ByteReader where
  data : List UInt8
  pos : ℕ
deriving DecidableEq

/-- `NewByteReader`: fresh reader over `data`, positioned at 0. -/
def NewByteReader (data : List UInt8) : ByteReader :=
  { data := data, pos := 0 }

/-- `ByteReader.Read` into a destination buffer of length `bufLen`: at or
past the end it returns no bytes and `io.EOF` (the `Bool` component);
otherwise `copy` moves `min bufLen (length - pos)` bytes starting at `pos`
and the position advances by that count, with a nil error. Returns the
bytes read, the EOF flag and the new reader. -/
def ByteReader.Read (r : ByteReader) (bufLen : ℕ) :
    List UInt8 × Bool × ByteReader :=
  if r.data.length ≤ r.pos then ([], true, r)
  else
    let chunk := (r.data.drop r.pos).take bufLen
    (chunk, false, { r with pos := r.pos + chunk.length })

/-- Repeated calls to `ByteReader.Read` with the given buffer lengths,
concatenating the bytes obtained. -/
def ByteReader.readMany (r : ByteReader) (sizes : List ℕ) :
    List UInt8 × ByteReader :=
  match sizes with
  | [] => ([], r)
  | k :: rest =>
      let out := r.Read k
      let next := out.2.2.readMany rest
      (out.1 ++ next.1, next.2)

/-- State of the two-caller race model for `GetTile`: the manager state,
one program counter per caller, and the number of `loadTile` fetch tasks
scheduled so far. Program counter values: `0` before the RLock-guarded
check section, `1` between the check and the separately Lock-guarded
mark-and-schedule section, `2` finished. -/
structure RaceState (Img : Type) where
  tm : TMState Img
  pcA : ℕ
  pcB : ℕ
  sched : ℕ
deriving DecidableEq

/-- One atomic section of `GetTile` executed by caller A (`who = true`) or
caller B, both requesting the same `coord`. At `pc = 0` the caller runs
the RLock-guarded reads of the Go code: on a cache hit or an in-flight
mark it finishes; otherwise it releases the read lock and proceeds to
`pc = 1`, the Lock-guarded section that sets the in-flight mark and
schedules a `loadTile` task. The gap between the two sections mirrors the
`RUnlock` / `Lock` gap in the source. -/
def raceStep {Img : Type} [DecidableEq Img] (coord : TileCoord)
    (s : RaceState Img) (who : Bool) : RaceState Img :=
  let pc := if who then s.pcA else s.pcB
  let key : TileCacheKey := { coord := coord, source := s.tm.source }
  let setPC := fun (s' : RaceState Img) (v : ℕ) =>
    if who then { s' with pcA := v } else { s' with pcB := v }
  if pc = 0 then
    match s.tm.tiles.lookup key with
    | some _ => setPC s 2
    | none => if key ∈ s.tm.loading then setPC s 2 else setPC s 1
  else if pc = 1 then
    setPC { s with tm := { s.tm with loading := key :: s.tm.loading },
                   sched := s.sched + 1 } 2
  else s

/-- Run the race model under a given interleaving of the two callers'
atomic sections. -/
def raceRun {Img : Type} [DecidableEq Img] (coord : TileCoord)
    (s : RaceState Img) (order : List Bool) : RaceState Img :=
  order.foldl (raceStep coord) s

/-- Sample coordinate used by concrete witnesses. -/
def sampleCoord : TileCoord :=
  { x := 0, y := 0, z := 1 }

/-- Sample cache key used by concrete witnesses. -/
def sampleKey : TileCacheKey :=
  { coord := sampleCoord, source := MapSource.satellite }

/-- Sample manager state with one cached tile and no fetch in flight, used
by concrete witnesses. -/
def sampleCachedTM : TMState ℕ :=
  { cacheDir := "tiles", source := MapSource.satellite,
    tiles := [(sampleKey, 7)], loading := [] }

/-- C1: `GetTile` is non-blocking with three-way semantics. For every
coordinate: a resident decoded tile for the key `(coord, current source)`
is returned with no state change and no fetch scheduled; if the key is
already marked in-flight, `none` is returned and nothing is scheduled;
otherwise the key is marked in-flight, an asynchronous fetch is scheduled,
and `none` is returned. `GetTile` takes no disk or network oracle, so it
performs no I/O on the calling context by construction. -/
theorem getTile_three_way {Img : Type} [DecidableEq Img] (s : TMState Img)
    (coord : TileCoord) :
    (∀ t, s.tiles.lookup { coord := coord, source := s.source } = some t →
        GetTile s coord = (some t, s, false)) ∧
    (s.tiles.lookup { coord := coord, source := s.source } = none →
      ({ coord := coord, source := s.source } : TileCacheKey) ∈ s.loading →
        GetTile s coord = (none, s, false)) ∧
    (s.tiles.lookup { coord := coord, source := s.source } = none →
      ({ coord := coord, source := s.source } : TileCacheKey) ∉ s.loading →
        GetTile s coord =
          (none, { s with loading :=
            ({ coord := coord, source := s.source } : TileCacheKey) :: s.loading },
           true)) := by
  refine ⟨fun t ht => ?_, fun h1 h2 => ?_, fun h1 h2 => ?_⟩ <;>
    simp [GetTile, *]

/-- Witness for C1 at a concrete input: a fresh manager holds no tile and
no in-flight mark for tile `(0,0,1)`, so `GetTile` marks the key, schedules
a fetch, and returns `none`. -/
theorem getTile_three_way_w :
    GetTile (NewTileManager Unit "tiles") { x := 0, y := 0, z := 1 } =
      (none,
       { NewTileManager Unit "tiles" with
           loading := [{ coord := { x := 0, y := 0, z := 1 },
                         source := MapSource.satellite }] },
       true) :=
  (getTile_three_way (NewTileManager Unit "tiles")
    { x := 0, y := 0, z := 1 }).2.2 rfl (by decide)

/-- C2, evaluated at the failing interleaving: starting from a fresh
manager, two concurrent `GetTile` calls for the same tile that both run
the RLock-guarded check section before either runs the Lock-guarded
mark-and-schedule section end up scheduling two `loadTile` fetch tasks for
one key, violating the at-most-one-outstanding-fetch claim. -/
theorem getTile_race_double_fetch :
    (raceRun { x := 0, y := 0, z := 1 }
        { tm := NewTileManager Unit "tiles", pcA := 0, pcB := 0, sched := 0 }
        [true, false, true, false]).sched = 2 ∧
    ¬ (raceRun { x := 0, y := 0, z := 1 }
        { tm := NewTileManager Unit "tiles", pcA := 0, pcB := 0, sched := 0 }
        [true, false, true, false]).sched ≤ 1 := by
  constructor
  · rfl
  · decide

/-- C6: the fetch algorithm is disk-first: when the disk cache file at the
key's path decodes to an image, `loadTile` publishes that image into the
in-memory map and clears the in-flight marker without performing any HTTP
request. -/
theorem loadTile_disk_first {Img : Type} [DecidableEq Img]
    (disk : String → Option Img) (net : TileCacheKey → NetResult Img)
    (s : TMState Img) (coord : TileCoord) (source : MapSource) (img : Img)
    (hdisk : disk (cachePath s.cacheDir coord source) = some img) :
    (loadTile disk net s coord source).1.tiles.lookup
        { coord := coord, source := source } = some img ∧
    FetchAction.httpGet ∉ (loadTile disk net s coord source).2 ∧
    ({ coord := coord, source := source } : TileCacheKey) ∉
      (loadTile disk net s coord source).1.loading := by
  refine ⟨?_, ?_, ?_⟩ <;>
    simp [loadTile, loadFromCache, hdisk, List.mem_filter]

/-- Witness for C6 at a concrete input: with a disk oracle that decodes
every path, the fetch for tile `(0,0,1)` publishes the decoded image,
touches no network, and leaves the key unmarked. -/
theorem loadTile_disk_first_w :
    (loadTile (fun _ => some 7) (fun _ => NetResult.reqError)
        (NewTileManager ℕ "tiles") { x := 0, y := 0, z := 1 }
        MapSource.satellite).1.tiles.lookup
      { coord := { x := 0, y := 0, z := 1 }, source := MapSource.satellite } = some 7 ∧
    FetchAction.httpGet ∉ (loadTile (fun _ => some 7) (fun _ => NetResult.reqError)
        (NewTileManager ℕ "tiles") { x := 0, y := 0, z := 1 }
        MapSource.satellite).2 ∧
    ({ coord := { x := 0, y := 0, z := 1 },
       source := MapSource.satellite } : TileCacheKey) ∉
      (loadTile (fun _ => some 7) (fun _ => NetResult.reqError)
        (NewTileManager ℕ "tiles") { x := 0, y := 0, z := 1 }
        MapSource.satellite).1.loading :=
  loadTile_disk_first (fun _ => some 7) (fun _ => NetResult.reqError)
    (NewTileManager ℕ "tiles") { x := 0, y := 0, z := 1 }
    MapSource.satellite 7 rfl

/-- C7: on any fetch failure (request error, non-200 status, body read
error, or decode error) nothing is published: the tile map is unchanged,
the key stays absent, and the in-flight marker is gone; clearing the
marker is the last recorded action of every fetch regardless of outcome;
and a subsequent `GetTile` for the same key returns `none` and schedules a
fresh fetch. -/
theorem loadTile_failure {Img : Type} [DecidableEq Img]
    (disk : String → Option Img) (net : TileCacheKey → NetResult Img)
    (s : TMState Img) (coord : TileCoord) (source : MapSource)
    (hdisk : disk (cachePath s.cacheDir coord source) = none)
    (hnet : ∀ img, net { coord := coord, source := source } ≠ NetResult.ok img)
    (habsent : s.tiles.lookup { coord := coord, source := source } = none)
    (hsource : s.source = source) :
    (loadTile disk net s coord source).1.tiles = s.tiles ∧
    (loadTile disk net s coord source).1.tiles.lookup
        { coord := coord, source := source } = none ∧
    ({ coord := coord, source := source } : TileCacheKey) ∉
      (loadTile disk net s coord source).1.loading ∧
    (∀ (d : String → Option Img) (m : TileCacheKey → NetResult Img),
        ((loadTile d m s coord source).2).getLast? = some FetchAction.clearMark) ∧
    (GetTile (loadTile disk net s coord source).1 coord).1 = none ∧
    (GetTile (loadTile disk net s coord source).1 coord).2.2 = true := by
  have hfail : ∃ acts, downloadTile net { coord := coord, source := source } =
      (none, acts) := by
    cases hn : net { coord := coord, source := source } with
    | reqError => exact ⟨[FetchAction.httpGet], by simp [downloadTile, hn]⟩
    | statusError code => exact ⟨[FetchAction.httpGet], by simp [downloadTile, hn]⟩
    | readError => exact ⟨[FetchAction.httpGet], by simp [downloadTile, hn]⟩
    | decodeFail =>
        exact ⟨[FetchAction.httpGet, FetchAction.writeDisk], by simp [downloadTile, hn]⟩
    | ok img => exact absurd hn (hnet img)
  obtain ⟨acts, hacts⟩ := hfail
  have hlast : ∀ (d : String → Option Img) (m : TileCacheKey → NetResult Img),
      ((loadTile d m s coord source).2).getLast? = some FetchAction.clearMark := by
    intro d m
    cases hd : d (cachePath s.cacheDir coord source) with
    | some img => simp [loadTile, loadFromCache, hd]
    | none =>
      cases hm : m { coord := coord, source := source } <;>
        simp [loadTile, loadFromCache, hd, downloadTile, hm]
  have hstate : (loadTile disk net s coord source).1 =
      { s with loading := s.loading.filter (fun k => k != ({ coord := coord, source := source } : TileCacheKey)) } := by
    simp [loadTile, loadFromCache, hdisk, hacts]
  refine ⟨by rw [hstate], by rw [hstate]; exact habsent, ?_, hlast, ?_, ?_⟩
  · rw [hstate]
    simp [List.mem_filter]
  · rw [hstate]
    simp only [GetTile, hsource]
    simp [habsent, hsource, List.mem_filter]
  · rw [hstate]
    simp only [GetTile, hsource]
    simp [habsent, hsource, List.mem_filter]

/-- Witness for C7 at a concrete input: empty disk, network returning a
404 status, fresh manager; the fetch publishes nothing, ends by clearing
the marker, and the next `GetTile` schedules again. -/
theorem loadTile_failure_w :
    (loadTile (fun _ => none) (fun _ => NetResult.statusError 404)
        (NewTileManager ℕ "tiles") { x := 0, y := 0, z := 1 }
        MapSource.satellite).1.tiles = (NewTileManager ℕ "tiles").tiles ∧
    (loadTile (fun _ => none) (fun _ => NetResult.statusError 404)
        (NewTileManager ℕ "tiles") { x := 0, y := 0, z := 1 }
        MapSource.satellite).1.tiles.lookup
      { coord := { x := 0, y := 0, z := 1 }, source := MapSource.satellite } = none ∧
    ({ coord := { x := 0, y := 0, z := 1 },
       source := MapSource.satellite } : TileCacheKey) ∉
      (loadTile (fun _ => none) (fun _ => NetResult.statusError 404)
        (NewTileManager ℕ "tiles") { x := 0, y := 0, z := 1 }
        MapSource.satellite).1.loading ∧
    (∀ (d : String → Option ℕ) (m : TileCacheKey → NetResult ℕ),
        ((loadTile d m (NewTileManager ℕ "tiles") { x := 0, y := 0, z := 1 }
          MapSource.satellite).2).getLast? = some FetchAction.clearMark) ∧
    (GetTile (loadTile (fun _ => none) (fun _ => NetResult.statusError 404)
        (NewTileManager ℕ "tiles") { x := 0, y := 0, z := 1 }
        MapSource.satellite).1 { x := 0, y := 0, z := 1 }).1 = none ∧
    (GetTile (loadTile (fun _ => none) (fun _ => NetResult.statusError 404)
        (NewTileManager ℕ "tiles") { x := 0, y := 0, z := 1 }
        MapSource.satellite).1 { x := 0, y := 0, z := 1 }).2.2 = true :=
  loadTile_failure (fun _ => none) (fun _ => NetResult.statusError 404)
    (NewTileManager ℕ "tiles") { x := 0, y := 0, z := 1 }
    MapSource.satellite rfl (fun img h => by cases h) rfl rfl

/-- C8: `ClearCache` discards exactly the in-memory decoded tiles: the
tile map becomes empty while the active source, the in-flight set and the
cache directory are unchanged (`ClearCache` consults no disk oracle at
all, so the disk cache is untouched); afterwards `GetTile` for any key not
currently in-flight — in particular any previously-cached key of a
quiescent manager — returns `none` and schedules a fetch again. -/
theorem clearCache_spec {Img : Type} [DecidableEq Img] (s : TMState Img)
    (coord : TileCoord)
    (h : ({ coord := coord, source := s.source } : TileCacheKey) ∉ s.loading) :
    (ClearCache s).tiles = [] ∧
    (ClearCache s).source = s.source ∧
    (ClearCache s).loading = s.loading ∧
    (ClearCache s).cacheDir = s.cacheDir ∧
    (GetTile (ClearCache s) coord).1 = none ∧
    (GetTile (ClearCache s) coord).2.2 = true := by
  refine ⟨rfl, rfl, rfl, rfl, ?_, ?_⟩ <;> simp [ClearCache, GetTile, h]

/-- Witness for C8 at a concrete input: a manager with tile `(0,0,1)`
cached and no fetch in flight; after `ClearCache` the tile is gone from
memory, everything else is unchanged, and `GetTile` re-triggers a fetch. -/
theorem clearCache_spec_w :
    (ClearCache sampleCachedTM).tiles = [] ∧
    (ClearCache sampleCachedTM).source = sampleCachedTM.source ∧
    (ClearCache sampleCachedTM).loading = sampleCachedTM.loading ∧
    (ClearCache sampleCachedTM).cacheDir = sampleCachedTM.cacheDir ∧
    (GetTile (ClearCache sampleCachedTM) sampleCoord).1 = none ∧
    (GetTile (ClearCache sampleCachedTM) sampleCoord).2.2 = true :=
  clearCache_spec sampleCachedTM sampleCoord (by decide)

/-- C9: switching the map source with `SetSource` or `ToggleSource` leaves
the in-memory tile map, the in-flight set, and the cache directory
unchanged — entries of both sources coexist in the one map, distinguished
only by the source component of the key. -/
theorem source_switch_frame {Img : Type} (s : TMState Img) (source : MapSource) :
    (SetSource s source).tiles = s.tiles ∧
    (SetSource s source).loading = s.loading ∧
    (SetSource s source).cacheDir = s.cacheDir ∧
    (ToggleSource s).2.tiles = s.tiles ∧
    (ToggleSource s).2.loading = s.loading ∧
    (ToggleSource s).2.cacheDir = s.cacheDir :=
  ⟨rfl, rfl, rfl, rfl, rfl, rfl⟩

/-- Helper: a run of `Read`s with positive buffer sizes, at least as many
reads as unread bytes, emits exactly the unread suffix, preserves the
underlying data, and parks the position at or past the end. -/
theorem readMany_drains (sizes : List ℕ) :
    ∀ (data : List UInt8) (pos : ℕ), (∀ k ∈ sizes, 1 ≤ k) →
      data.length - pos ≤ sizes.length →
      ((ByteReader.mk data pos).readMany sizes).1 = data.drop pos ∧
      ((ByteReader.mk data pos).readMany sizes).2.data = data ∧
      data.length ≤ ((ByteReader.mk data pos).readMany sizes).2.pos := by
  induction sizes with
  | nil =>
    intro data pos _ hlen
    simp only [List.length_nil, Nat.le_zero] at hlen
    have hle : data.length ≤ pos := by omega
    refine ⟨?_, rfl, hle⟩
    simp [ByteReader.readMany, List.drop_eq_nil_of_le hle]
  | cons k rest ih =>
    intro data pos hpos hlen
    simp only [List.length_cons] at hlen
    have hrestpos : ∀ j ∈ rest, 1 ≤ j :=
      fun j hj => hpos j (List.mem_cons_of_mem _ hj)
    by_cases hend : data.length ≤ pos
    · have hrest := ih data pos hrestpos (by omega)
      simp only [ByteReader.readMany, ByteReader.Read, if_pos hend]
      simpa using hrest
    · push_neg at hend
      have hk : 1 ≤ k := hpos k (List.mem_cons_self k rest)
      have hmlen : ((data.drop pos).take k).length = min k (data.length - pos) := by
        rw [List.length_take, List.length_drop]
      have hm1 : 1 ≤ ((data.drop pos).take k).length := by omega
      have hrec := ih data (pos + ((data.drop pos).take k).length) hrestpos (by omega)
      simp only [ByteReader.readMany, ByteReader.Read,
        if_neg (by omega : ¬ data.length ≤ pos)]
      refine ⟨?_, hrec.2.1, hrec.2.2⟩
      rw [hrec.1]
      have hdd : data.drop (pos + ((data.drop pos).take k).length) =
          (data.drop pos).drop ((data.drop pos).take k).length := by
        simp [List.drop_drop, Nat.add_comm]
      rw [hdd]
      by_cases hkl : k ≤ (data.drop pos).length
      · have hlk : ((data.drop pos).take k).length = k := by
          rw [List.length_take]
          omega
        rw [hlk, List.take_append_drop]
      · push_neg at hkl
        have htk : (data.drop pos).take k = data.drop pos :=
          List.take_of_length_le (by omega)
        rw [htk, List.drop_eq_nil_of_le (le_refl _), List.append_nil]

/-- C10: a fresh `ByteReader` over `data` yields exactly the bytes of
`data` in order: any run of `Read`s with positive buffer lengths, at least
as many reads as bytes, returns the bytes of `data` concatenated in order,
after which every further `Read` returns no bytes and reports `io.EOF`;
and in general a `Read` at or past the end returns no data, reports EOF,
and leaves the reader unchanged. -/
theorem byteReader_reads_data (data : List UInt8) (sizes : List ℕ)
    (hpos : ∀ k ∈ sizes, 1 ≤ k) (henough : data.length ≤ sizes.length) :
    ((NewByteReader data).readMany sizes).1 = data ∧
    (∀ k, (((NewByteReader data).readMany sizes).2.Read k).1 = [] ∧
          (((NewByteReader data).readMany sizes).2.Read k).2.1 = true) ∧
    (∀ (r : ByteReader) (k : ℕ), r.data.length ≤ r.pos →
        r.Read k = ([], true, r)) := by
  have h := readMany_drains sizes data 0 hpos (by simpa using henough)
  have hnew : NewByteReader data = ByteReader.mk data 0 := rfl
  rw [hnew]
  refine ⟨by simpa using h.1, ?_, ?_⟩
  · intro k
    have hEOF : ((ByteReader.mk data 0).readMany sizes).2.data.length ≤
        ((ByteReader.mk data 0).readMany sizes).2.pos := by
      rw [h.2.1]
      exact h.2.2
    constructor <;> simp [ByteReader.Read, if_pos hEOF]
  · intro r k hr
    simp [ByteReader.Read, if_pos hr]

/-- Witness for C10 at a concrete input: reading `[3,1,4]` with buffers of
sizes `2, 5, 1` yields `[3,1,4]` and then EOF. -/
theorem byteReader_reads_data_w :
    ((NewByteReader [3, 1, 4]).readMany [2, 5, 1]).1 = [3, 1, 4] ∧
    (∀ k, (((NewByteReader [3, 1, 4]).readMany [2, 5, 1]).2.Read k).1 = [] ∧
          (((NewByteReader [3, 1, 4]).readMany [2, 5, 1]).2.Read k).2.1 = true) ∧
    (∀ (r : ByteReader) (k : ℕ), r.data.length ≤ r.pos →
        r.Read k = ([], true, r)) :=
  byteReader_reads_data [3, 1, 4] [2, 5, 1] (by decide) (by decide)

/-- Helper: truncated remainder of a negated dividend. -/
theorem tmod_neg_left (a b : ℤ) : (-a).tmod b = -(a.tmod b) := by
  rw [Int.tmod_def, Int.tmod_def, Int.neg_tdiv]
  ring

/-- Helper: Go's double-remainder wrap `((x % n) + n) % n` with truncated
`%` equals the Euclidean remainder for positive `n`. -/
theorem wrapX_eq_emod (x n : ℤ) (hn : 0 < n) : wrapX x n = x % n := by
  have hlow : -n < x.tmod n := by
    rcases le_or_lt 0 x with hx | hx
    · have h0 : 0 ≤ x.tmod n := Int.tmod_nonneg n hx
      linarith
    · have h1 := tmod_neg_left (-x) n
      rw [neg_neg] at h1
      have h2 : (-x).tmod n = (-x) % n :=
        Int.tmod_eq_emod (by omega) (by omega)
      have h3 : (-x) % n < n := Int.emod_lt_of_pos _ hn
      rw [h2] at h1
      linarith
  have hv : 0 ≤ x.tmod n + n := by linarith
  have h4 : wrapX x n = (x.tmod n + n) % n := by
    rw [wrapX, Int.tmod_eq_emod hv (by omega)]
  rw [h4, Int.tmod_def]
  have h5 : x - n * x.tdiv n + n = x + n * (1 - x.tdiv n) := by ring
  rw [h5, Int.add_mul_emod_self_left]

/-- Helper: the wrapped X index lies in `[0, n)`. -/
theorem wrapX_bounds (x n : ℤ) (hn : 0 < n) : 0 ≤ wrapX x n ∧ wrapX x n < n := by
  rw [wrapX_eq_emod x n hn]
  exact ⟨Int.emod_nonneg x (by omega), Int.emod_lt_of_pos x hn⟩

/-- Helper: every coordinate produced by the enumeration loops of
`GetTilesForView` is in range at its zoom. -/
theorem tilesForView_in_range (cX cY : ℤ) (zoom : ℕ) (w h : ℤ) :
    ∀ c ∈ tilesForView cX cY zoom w h,
      0 ≤ c.x ∧ c.x < 2 ^ zoom ∧ 0 ≤ c.y ∧ c.y < 2 ^ zoom := by
  intro c hc
  have hn : (0 : ℤ) < 2 ^ zoom := by positivity
  simp only [tilesForView, List.mem_flatMap, List.mem_filterMap] at hc
  obtain ⟨dx, hdx, dy, hdy, hsome⟩ := hc
  by_cases hy : cY + dy < 0 ∨ (2 : ℤ) ^ zoom ≤ cY + dy
  · rw [if_pos hy] at hsome
    exact absurd hsome (by simp)
  · rw [if_neg hy] at hsome
    push_neg at hy
    obtain rfl := Option.some.inj hsome
    have hw := wrapX_bounds (cX + dx) (2 ^ zoom) hn
    exact ⟨hw.1, hw.2, hy.1, hy.2⟩

/-- C4: for every center, every zoom, and every viewport size, every tile
coordinate returned by `GetTilesForView` satisfies `0 ≤ x < 2^zoom` and
`0 ≤ y < 2^zoom`: the X index is wrapped modulo `2^zoom` and any tile with
out-of-range Y index is dropped — there is no vertical wraparound. -/
theorem getTilesForView_in_range (lat lon : ℝ) (zoom : ℕ) (w h : ℤ) :
    ∀ c ∈ GetTilesForView lat lon zoom w h,
      0 ≤ c.x ∧ c.x < 2 ^ zoom ∧ 0 ≤ c.y ∧ c.y < 2 ^ zoom :=
  fun c hc => tilesForView_in_range _ _ zoom w h c hc

/-- Helper: at zoom 1, the view centered at latitude 0, longitude 0 has
center tile `(1, 1)`. -/
theorem getTilesForView_origin_z1 (w h : ℤ) :
    GetTilesForView 0 0 1 w h = tilesForView 1 1 1 w h := by
  have hx : goInt ((0 + 180) / 360 * ((2 : ℝ) ^ (1 : ℕ))) = 1 := by
    norm_num [goInt]
  have hy : goInt ((1 - Real.arsinh (Real.tan ((0 : ℝ) * Real.pi / 180)) / Real.pi)
      / 2 * ((2 : ℝ) ^ (1 : ℕ))) = 1 := by
    norm_num [goInt, Real.arsinh_zero, Real.tan_zero]
  simp only [GetTilesForView, LatLonToTile]
  rw [hx, hy]

/-- Witness for C4 at a concrete input: tile `(0,0,1)` is among the tiles
returned for a view at the origin at zoom 1, and its coordinates are in
range. -/
theorem getTilesForView_in_range_w :
    0 ≤ ({ x := 0, y := 0, z := 1 } : TileCoord).x ∧
    ({ x := 0, y := 0, z := 1 } : TileCoord).x < 2 ^ (1 : ℕ) ∧
    0 ≤ ({ x := 0, y := 0, z := 1 } : TileCoord).y ∧
    ({ x := 0, y := 0, z := 1 } : TileCoord).y < 2 ^ (1 : ℕ) :=
  getTilesForView_in_range 0 0 1 0 0 { x := 0, y := 0, z := 1 }
    (by rw [getTilesForView_origin_z1]; decide)

/-- Helper: membership in `intRange`. -/
theorem mem_intRange {lo hi a : ℤ} : a ∈ intRange lo hi ↔ lo ≤ a ∧ a ≤ hi := by
  simp only [intRange, List.mem_map, List.mem_range]
  constructor
  · rintro ⟨i, hilt, rfl⟩
    omega
  · intro hja
    exact ⟨(a - lo).toNat, by omega, by omega⟩

/-- Helper: `intRange` has no duplicate values. -/
theorem intRange_nodup (lo hi : ℤ) : (intRange lo hi).Nodup := by
  apply List.Nodup.map ?_ (List.nodup_range _)
  intro i j hij
  simp only at hij
  omega

/-- Helper: length of `intRange`. -/
theorem intRange_length (lo hi : ℤ) :
    (intRange lo hi).length = (hi + 1 - lo).toNat := by
  rw [intRange, List.length_map, List.length_range]

/-- Helper: a `filterMap` whose function never skips is a `map`. -/
theorem filterMap_eq_map_of_some {α β : Type} {f : α → Option β} {g : α → β}
    {l : List α} (h : ∀ a ∈ l, f a = some (g a)) :
    l.filterMap f = l.map g := by
  induction l with
  | nil => rfl
  | cons a l ih =>
    rw [List.filterMap_cons_some (h a (List.mem_cons_self a l)), List.map_cons,
      ih (fun b hb => h b (List.mem_cons_of_mem a hb))]

/-- Helper: length of a `flatMap` whose pieces all have the same length. -/
theorem length_flatMap_const {α β : Type} (l : List α) (f : α → List β) (c : ℕ)
    (h : ∀ a ∈ l, (f a).length = c) : (l.flatMap f).length = l.length * c := by
  induction l with
  | nil => simp
  | cons a t ih =>
    rw [List.flatMap_cons, List.length_append, h a (List.mem_cons_self a t),
      ih (fun b hb => h b (List.mem_cons_of_mem a hb)), List.length_cons]
    ring

/-- Helper: `tilesForView` in block normal form. -/
theorem tilesForView_eq_blockEnum (cX cY : ℤ) (zoom : ℕ) (w h : ℤ) :
    tilesForView cX cY zoom w h =
      blockEnum cX cY (2 ^ zoom) (zoom : ℤ)
        ((w.tdiv (TileSize : ℤ) + 2).tdiv 2)
        ((h.tdiv (TileSize : ℤ) + 2).tdiv 2) := by
  simp only [tilesForView, blockEnum, Int.neg_tdiv]

/-- Helper: one column of the block, with no rows dropped, has `2*ky + 1`
tiles. -/
theorem blockEnum_inner_length (cX cY n z ky dx : ℤ)
    (h1 : 0 ≤ cY - ky) (h2 : cY + ky < n) :
    ((intRange (-ky) ky).filterMap (fun dy =>
      if cY + dy < 0 ∨ n ≤ cY + dy then none
      else some ({ x := wrapX (cX + dx) n, y := cY + dy, z := z } : TileCoord))).length
    = (2 * ky + 1).toNat := by
  rw [filterMap_eq_map_of_some
      (g := fun dy => ({ x := wrapX (cX + dx) n, y := cY + dy, z := z } : TileCoord))
      (fun dy hdy => by
        rw [mem_intRange] at hdy
        rw [if_neg (by omega)]),
    List.length_map, intRange_length]
  omega

/-- Helper: with no rows dropped, the block has `(2*kx+1) * (2*ky+1)`
tiles. -/
theorem blockEnum_length (cX cY n z kx ky : ℤ)
    (h1 : 0 ≤ cY - ky) (h2 : cY + ky < n) :
    (blockEnum cX cY n z kx ky).length =
      (2 * kx + 1).toNat * (2 * ky + 1).toNat := by
  rw [blockEnum, length_flatMap_const _ _ ((2 * ky + 1).toNat)
      (fun dx _ => blockEnum_inner_length cX cY n z ky dx h1 h2),
    intRange_length]
  congr 1
  omega

/-- Helper: when the column count `2*kx + 1` is at most `n`, the block has
no duplicate coordinates: rows differ in `y`, columns differ in the
wrapped `x`. -/
theorem blockEnum_nodup (cX cY n z kx ky : ℤ) (hn : 0 < n)
    (hkx : 2 * kx + 1 ≤ n) :
    (blockEnum cX cY n z kx ky).Nodup := by
  rw [blockEnum, List.nodup_flatMap]
  constructor
  · intro dx _
    apply List.Nodup.filterMap ?_ (intRange_nodup _ _)
    intro a b c hca hcb
    by_cases h1 : cY + a < 0 ∨ n ≤ cY + a
    · rw [if_pos h1] at hca
      simp at hca
    by_cases h2 : cY + b < 0 ∨ n ≤ cY + b
    · rw [if_pos h2] at hcb
      simp at hcb
    rw [if_neg h1, Option.mem_def, Option.some_inj] at hca
    rw [if_neg h2, Option.mem_def, Option.some_inj] at hcb
    subst hca
    simp only [TileCoord.mk.injEq] at hcb
    omega
  · refine List.Pairwise.imp_of_mem ?_ (intRange_nodup (-kx) kx)
    intro a b ha hb hab
    intro c hc1 hc2
    rw [mem_intRange] at ha hb
    simp only [List.mem_filterMap] at hc1 hc2
    obtain ⟨dy1, hdy1, hs1⟩ := hc1
    obtain ⟨dy2, hdy2, hs2⟩ := hc2
    by_cases h1 : cY + dy1 < 0 ∨ n ≤ cY + dy1
    · rw [if_pos h1] at hs1
      exact absurd hs1 (by simp)
    by_cases h2 : cY + dy2 < 0 ∨ n ≤ cY + dy2
    · rw [if_pos h2] at hs2
      exact absurd hs2 (by simp)
    rw [if_neg h1, Option.some_inj] at hs1
    rw [if_neg h2, Option.some_inj] at hs2
    have hmk := hs1.trans hs2.symm
    simp only [TileCoord.mk.injEq] at hmk
    have hxx : (cX + a) % n = (cX + b) % n := by
      rw [← wrapX_eq_emod _ _ hn, ← wrapX_eq_emod _ _ hn]
      exact hmk.1
    have h0 : ((cX + a) - (cX + b)) % n = 0 :=
      Int.emod_eq_emod_iff_emod_sub_eq_zero.mp hxx
    have hab' : (cX + a) - (cX + b) = a - b := by ring
    rw [hab'] at h0
    have hdvd : n ∣ (a - b) := Int.dvd_of_emod_eq_zero h0
    have hne : a - b ≠ 0 := by omega
    have hlarge : n ≤ |a - b| :=
      Int.le_of_dvd (abs_pos.mpr hne) ((dvd_abs n (a - b)).mpr hdvd)
    have hsmall : |a - b| ≤ 2 * kx := abs_le.mpr ⟨by omega, by omega⟩
    linarith

/-- Helper: at zoom 15, the view centered at latitude 0, longitude 0 has
center tile `(16384, 16384)`. -/
theorem getTilesForView_origin_z15 (w h : ℤ) :
    GetTilesForView 0 0 15 w h = tilesForView 16384 16384 15 w h := by
  have hx : goInt ((0 + 180) / 360 * ((2 : ℝ) ^ (15 : ℕ))) = 16384 := by
    norm_num [goInt]
  have hy : goInt ((1 - Real.arsinh (Real.tan ((0 : ℝ) * Real.pi / 180)) / Real.pi)
      / 2 * ((2 : ℝ) ^ (15 : ℕ))) = 16384 := by
    norm_num [goInt, Real.arsinh_zero, Real.tan_zero]
  simp only [GetTilesForView, LatLonToTile]
  rw [hx, hy]

/-- C5 counterexample: at the spec's own concrete scenario — an 800×480
viewport centered at latitude 0, longitude 0 (center tile `(16384,16384)`)
at zoom 15, far from the poles — `GetTilesForView` returns 15 tiles,
whereas the claimed `ceil(800/256)+2 = 6` columns by `ceil(480/256)+2 = 4`
rows would be 24 tiles (and the claimed count is "roughly 18"): the code
sizes the block with floor division and an odd-width centered loop,
giving 5 columns by 3 rows. -/
theorem getTilesForView_count_cex :
    (GetTilesForView 0 0 15 800 480).length = 15 ∧
    ((800 + 255) / 256 + 2) * ((480 + 255) / 256 + 2) = 24 ∧
    (15 : ℕ) ≠ 24 := by
  refine ⟨?_, by norm_num, by decide⟩
  rw [getTilesForView_origin_z15]
  decide

/-- C5 (amended): `GetTilesForView` enumerates a centered rectangular
block of `2*((floor(W/TileSize)+2)/2) + 1` columns by
`2*((floor(H/TileSize)+2)/2) + 1` rows (Go integer division): whenever no
row is dropped at the poles and the column count is at most `2^zoom`, the
result has exactly `columns * rows` tiles with none duplicated; in
particular, for an 800×480 viewport centered at the origin at zoom 15 it
returns a contiguous 5×3 block of 15 distinct tiles. -/
theorem getTilesForView_block :
    (∀ (cX cY : ℤ) (zoom : ℕ) (w h : ℤ),
      0 ≤ cY - ((h.tdiv (TileSize : ℤ) + 2).tdiv 2) →
      cY + ((h.tdiv (TileSize : ℤ) + 2).tdiv 2) < 2 ^ zoom →
      2 * ((w.tdiv (TileSize : ℤ) + 2).tdiv 2) + 1 ≤ 2 ^ zoom →
      (tilesForView cX cY zoom w h).length =
        (2 * ((w.tdiv (TileSize : ℤ) + 2).tdiv 2) + 1).toNat *
        (2 * ((h.tdiv (TileSize : ℤ) + 2).tdiv 2) + 1).toNat ∧
      (tilesForView cX cY zoom w h).Nodup) ∧
    (GetTilesForView 0 0 15 800 480).length = 15 ∧
    (GetTilesForView 0 0 15 800 480).Nodup := by
  have hgen : ∀ (cX cY : ℤ) (zoom : ℕ) (w h : ℤ),
      0 ≤ cY - ((h.tdiv (TileSize : ℤ) + 2).tdiv 2) →
      cY + ((h.tdiv (TileSize : ℤ) + 2).tdiv 2) < 2 ^ zoom →
      2 * ((w.tdiv (TileSize : ℤ) + 2).tdiv 2) + 1 ≤ 2 ^ zoom →
      (tilesForView cX cY zoom w h).length =
        (2 * ((w.tdiv (TileSize : ℤ) + 2).tdiv 2) + 1).toNat *
        (2 * ((h.tdiv (TileSize : ℤ) + 2).tdiv 2) + 1).toNat ∧
      (tilesForView cX cY zoom w h).Nodup := by
    intro cX cY zoom w h h1 h2 h3
    have hn : (0 : ℤ) < 2 ^ zoom := by positivity
    rw [tilesForView_eq_blockEnum]
    exact ⟨blockEnum_length _ _ _ _ _ _ h1 h2, blockEnum_nodup _ _ _ _ _ _ hn h3⟩
  refine ⟨hgen, ?_, ?_⟩
  · rw [getTilesForView_origin_z15]
    decide
  · rw [getTilesForView_origin_z15]
    decide

/-- Witness for C5 at a concrete input: the general block-count statement
applied to the 800×480 viewport at zoom 15 centered on tile
`(16384,16384)` gives the 5×3 = 15-tile block with no duplicates. -/
theorem getTilesForView_block_w :
    (tilesForView 16384 16384 15 800 480).length =
      (2 * (((800 : ℤ).tdiv (TileSize : ℤ) + 2).tdiv 2) + 1).toNat *
      (2 * (((480 : ℤ).tdiv (TileSize : ℤ) + 2).tdiv 2) + 1).toNat ∧
    (tilesForView 16384 16384 15 800 480).Nodup :=
  getTilesForView_block.1 16384 16384 15 800 480 (by decide) (by decide) (by decide)

/-- Helper: on longitudes at least `-180` and latitudes within the
Mercator band, the Go truncation of the forward projection is a floor
(both projected coordinates are nonnegative). -/
theorem latLonToTile_eq_floor (lat lon : ℝ) (zoom : ℕ)
    (hlon : -180 ≤ lon)
    (hband : Real.tan (lat * Real.pi / 180) ≤ Real.sinh Real.pi) :
    LatLonToTile lat lon zoom =
      (⌊(lon + 180) / 360 * (2 : ℝ) ^ zoom⌋,
       ⌊(1 - Real.arsinh (Real.tan (lat * Real.pi / 180)) / Real.pi) / 2 *
         (2 : ℝ) ^ zoom⌋) := by
  have hfx0 : 0 ≤ (lon + 180) / 360 * (2 : ℝ) ^ zoom := by
    have h0 : (0 : ℝ) ≤ lon + 180 := by linarith
    positivity
  have harsinh : Real.arsinh (Real.tan (lat * Real.pi / 180)) ≤ Real.pi := by
    have h := Real.arsinh_le_arsinh.mpr hband
    rwa [Real.arsinh_sinh] at h
  have hfy0 : 0 ≤ (1 - Real.arsinh (Real.tan (lat * Real.pi / 180)) / Real.pi)
      / 2 * (2 : ℝ) ^ zoom := by
    have h1 : 0 ≤ 1 - Real.arsinh (Real.tan (lat * Real.pi / 180)) / Real.pi := by
      rw [sub_nonneg, div_le_one Real.pi_pos]
      exact harsinh
    positivity
  simp only [LatLonToTile, goInt, if_pos hfx0, if_pos hfy0]

/-- Helper: forward-projecting the latitude returned by the inverse
projection of tile row `y` recovers exactly `y`
(`tan ∘ arctan` and `arsinh ∘ sinh` collapse). -/
theorem mercY_inv (y : ℤ) (n : ℝ) (hn : n ≠ 0) :
    (1 - Real.arsinh (Real.tan (Real.arctan (Real.sinh (Real.pi *
      (1 - 2 * (y : ℝ) / n))) * 180 / Real.pi * Real.pi / 180)) / Real.pi)
      / 2 * n = (y : ℝ) := by
  have hπ : Real.pi ≠ 0 := Real.pi_ne_zero
  have h1 : Real.arctan (Real.sinh (Real.pi * (1 - 2 * (y : ℝ) / n))) * 180 /
      Real.pi * Real.pi / 180
      = Real.arctan (Real.sinh (Real.pi * (1 - 2 * (y : ℝ) / n))) := by
    field_simp
  rw [h1, Real.tan_arctan, Real.arsinh_sinh]
  field_simp
  ring

/-- C3: for every longitude at least `-180`, every latitude in the
Mercator-valid band (formalized exactly as `tan(lat·π/180) ≤ sinh π`,
which is the `|lat| ≤ ~85.05°` band, and is all the proof needs), and
every zoom in `[MinZoom, MaxZoom]`, the point returned by
`TileToLatLon (LatLonToTile lat lon zoom) zoom` lies within one tile-width
of the original: both coordinates in the Web-Mercator pixel plane (where
one tile-width is `TileSize` pixels) move by at most `TileSize`, and the
longitude moves by at most `360 / 2^zoom` degrees — exactly one tile-width
of longitude. The error is the truncation to tile granularity. -/
theorem tile_round_trip (lat lon : ℝ) (zoom : ℕ)
    (_hz1 : MinZoom ≤ zoom) (_hz2 : zoom ≤ MaxZoom)
    (hlon : -180 ≤ lon)
    (hband : Real.tan (lat * Real.pi / 180) ≤ Real.sinh Real.pi) :
    ∀ latc lonc,
      (latc, lonc) = TileToLatLon (LatLonToTile lat lon zoom).1
          (LatLonToTile lat lon zoom).2 zoom →
      |(LatLonToPixel lat lon zoom).1 - (LatLonToPixel latc lonc zoom).1| ≤
        (TileSize : ℝ) ∧
      |(LatLonToPixel lat lon zoom).2 - (LatLonToPixel latc lonc zoom).2| ≤
        (TileSize : ℝ) ∧
      |lon - lonc| ≤ 360 / 2 ^ zoom := by
  intro latc lonc hc
  have hn : (0 : ℝ) < 2 ^ zoom := by positivity
  have hn0 : ((2 : ℝ) ^ zoom) ≠ 0 := ne_of_gt hn
  rw [latLonToTile_eq_floor lat lon zoom hlon hband] at hc
  simp only [TileToLatLon, Prod.mk.injEq] at hc
  obtain ⟨hlatc, hlonc⟩ := hc
  subst hlatc
  subst hlonc
  simp only [LatLonToPixel, TileSize]
  have hfloorx1 := Int.floor_le ((lon + 180) / 360 * (2 : ℝ) ^ zoom)
  have hfloorx2 := Int.lt_floor_add_one ((lon + 180) / 360 * (2 : ℝ) ^ zoom)
  have hfloory1 := Int.floor_le
    ((1 - Real.arsinh (Real.tan (lat * Real.pi / 180)) / Real.pi) / 2 * (2 : ℝ) ^ zoom)
  have hfloory2 := Int.lt_floor_add_one
    ((1 - Real.arsinh (Real.tan (lat * Real.pi / 180)) / Real.pi) / 2 * (2 : ℝ) ^ zoom)
  refine ⟨?_, ?_, ?_⟩
  · have hpx : ((((⌊(lon + 180) / 360 * (2 : ℝ) ^ zoom⌋ : ℤ) : ℝ) / 2 ^ zoom * 360
        - 180) + 180) / 360 * (2 : ℝ) ^ zoom * (256 : ℕ)
        = ((⌊(lon + 180) / 360 * (2 : ℝ) ^ zoom⌋ : ℤ) : ℝ) * 256 := by
      field_simp
      ring
    rw [hpx]
    rw [abs_le]
    push_cast
    constructor <;> nlinarith
  · rw [mercY_inv ⌊(1 - Real.arsinh (Real.tan (lat * Real.pi / 180)) / Real.pi)
        / 2 * (2 : ℝ) ^ zoom⌋ ((2 : ℝ) ^ zoom) hn0]
    rw [abs_le]
    push_cast
    constructor <;> nlinarith
  · have hkey : lon - (((⌊(lon + 180) / 360 * (2 : ℝ) ^ zoom⌋ : ℤ) : ℝ) / 2 ^ zoom
        * 360 - 180)
        = ((lon + 180) / 360 * (2 : ℝ) ^ zoom -
            ((⌊(lon + 180) / 360 * (2 : ℝ) ^ zoom⌋ : ℤ) : ℝ)) * (360 / 2 ^ zoom) := by
      field_simp
      ring
    rw [hkey, abs_le]
    constructor
    · have hge : 0 ≤ ((lon + 180) / 360 * (2 : ℝ) ^ zoom -
          ((⌊(lon + 180) / 360 * (2 : ℝ) ^ zoom⌋ : ℤ) : ℝ)) * (360 / 2 ^ zoom) :=
        mul_nonneg (by linarith) (by positivity)
      have hpos : (0 : ℝ) < 360 / 2 ^ zoom := by positivity
      linarith
    · calc ((lon + 180) / 360 * (2 : ℝ) ^ zoom -
            ((⌊(lon + 180) / 360 * (2 : ℝ) ^ zoom⌋ : ℤ) : ℝ)) * (360 / 2 ^ zoom)
          ≤ 1 * (360 / 2 ^ zoom) :=
            mul_le_mul_of_nonneg_right (by linarith) (by positivity)
        _ = 360 / 2 ^ zoom := one_mul _

/-- Witness for C3 at a concrete input: latitude 0, longitude 0, zoom 1 is
in the Mercator band, and its round trip through the projection stays
within one tile-width. -/
theorem tile_round_trip_w :
    |(LatLonToPixel 0 0 1).1 -
      (LatLonToPixel (TileToLatLon (LatLonToTile 0 0 1).1
        (LatLonToTile 0 0 1).2 1).1
       (TileToLatLon (LatLonToTile 0 0 1).1 (LatLonToTile 0 0 1).2 1).2 1).1| ≤
      (TileSize : ℝ) ∧
    |(LatLonToPixel 0 0 1).2 -
      (LatLonToPixel (TileToLatLon (LatLonToTile 0 0 1).1
        (LatLonToTile 0 0 1).2 1).1
       (TileToLatLon (LatLonToTile 0 0 1).1 (LatLonToTile 0 0 1).2 1).2 1).2| ≤
      (TileSize : ℝ) ∧
    |(0 : ℝ) - (TileToLatLon (LatLonToTile 0 0 1).1 (LatLonToTile 0 0 1).2 1).2| ≤
      360 / 2 ^ (1 : ℕ) :=
  tile_round_trip 0 0 1 (by decide) (by decide) (by norm_num)
    (by
      rw [show (0 : ℝ) * Real.pi / 180 = 0 by ring, Real.tan_zero]
      positivity)
    (TileToLatLon (LatLonToTile 0 0 1).1 (LatLonToTile 0 0 1).2 1).1
    (TileToLatLon (LatLonToTile 0 0 1).1 (LatLonToTile 0 0 1).2 1).2 rfl

end ElrsMap
